import Mathlib

/-!
Verification of the NachOS MP3 multi-level feedback-queue scheduler
(`code/threads/scheduler.cc`) against its natural-language specification.

Thread handles are modelled by natural-number identities (`Nat`), standing
for the C++ `Thread*` pointers; the mutable per-thread bookkeeping a thread
pointer gives access to is held in a store `Nat → ThreadData`.  The
scheduler state `SchedState` carries the three ready queues `L[1]`, `L[2]`,
`L[3]` (lists of thread identities in insertion order), the store, the
kernel's current-thread pointer, the pending-destruction slot
`toBeDestroyed` and the `dirty` flag.

The Thread class itself is not part of the sources under verification; its
fields and accessors (`getPriority`, `getExecutionTime`, `incTickWaited`,
`calNewExecuteTime`, `saveLastTick`, `setTimeUsed`, `setStatus`) are
modelled from the specification's data model: `priority`, the burst
estimate `executionTime`, the wait counter `tickWaited`, the used-time
accumulator `timeUsed`, the saved last-quantum length `lastTick`, and the
run `status`.  The burst-estimate recomputation formula is explicitly
external ("pluggable policy") in the specification, so it is a parameter
`est : ThreadData → Int` of the operations that invoke it.
-/

/-- Modelled from the spec: run status of a thread,
`{READY, RUNNING, BLOCKED, TERMINATED}`. -/
inductive ThreadStatus where
  | READY
  | RUNNING
  | BLOCKED
  | TERMINATED
deriving DecidableEq, Repr

/-- Modelled from the spec: the per-thread bookkeeping fields the scheduler
reads and writes through a thread handle.  Integer fields are C `int`s;
no arithmetic in the scheduler can overflow them, so they are embedded as
`Int`. -/
structure ThreadData where
  priority : Int
  executionTime : Int
  tickWaited : Int
  timeUsed : Int
  lastTick : Int
  status : ThreadStatus
deriving DecidableEq, Repr

/-- The scheduler state: the three leveled ready queues (index 1, 2, 3 of
the `L` array in the source, as lists in insertion order, front first), the
thread store, the kernel's current-thread pointer, the pending-destruction
slot and the dirty flag. -/
structure SchedState where
  L1 : List Nat
  L2 : List Nat
  L3 : List Nat
  threads : Nat → ThreadData
  currentThread : Nat
  toBeDestroyed : Option Nat
  dirty : Bool

/-- Point update of the thread store. -/
def updThread (store : Nat → ThreadData) (t : Nat) (d : ThreadData) :
    Nat → ThreadData :=
  fun u => if u = t then d else store u

/-- `List<Thread*>::Remove`: remove the first occurrence of an element. -/
def removeFirst (x : Nat) : List Nat → List Nat
  | [] => []
  | y :: rest => if y = x then rest else y :: removeFirst x rest

/-- `Scheduler::Scheduler`: all four queues empty, `toBeDestroyed = NULL`,
`dirty = FALSE`.  The current-thread pointer lives in the kernel, not the
constructor, so it is a parameter, as is the ambient thread store. -/
def initScheduler (store : Nat → ThreadData) (cur : Nat) : SchedState :=
  { L1 := [], L2 := [], L3 := [], threads := store, currentThread := cur,
    toBeDestroyed := none, dirty := false }

/-- `Scheduler::ReadyToRun`: set status to READY, then append to `L[1]` if
`priority >= 100`, else `L[2]` if `priority >= 50`, else `L[3]`. -/
def readyToRun (s : SchedState) (thread : Nat) : SchedState :=
  let store := updThread s.threads thread
    ({ s.threads thread with status := ThreadStatus.READY })
  if (s.threads thread).priority ≥ 100 then
    { s with threads := store, L1 := s.L1 ++ [thread] }
  else if (s.threads thread).priority ≥ 50 then
    { s with threads := store, L2 := s.L2 ++ [thread] }
  else
    { s with threads := store, L3 := s.L3 ++ [thread] }

/-- `Scheduler::preprocessThreads`: the loop over the ready queues is
commented out in the source; the live code only recomputes the current
thread's burst estimate (`calNewExecuteTime`, external policy `est`),
saves the last quantum length (`saveLastTick`) and resets its used time
(`setTimeUsed(0)`). -/
def preprocessThreads (est : ThreadData → Int) (s : SchedState) : SchedState :=
  let d := s.threads s.currentThread
  { s with threads :=
             updThread s.threads s.currentThread
               ({ d with executionTime := est d, lastTick := d.timeUsed,
                         timeUsed := 0 }) }

/-- Loop body of `Scheduler::findNextL1`: scan with `min_burst` starting at
`0x7fffffff`, updating on strict `<`. -/
def findNextL1Loop (store : Nat → ThreadData) :
    List Nat → Int → Option Nat → Option Nat
  | [], _, result => result
  | t :: rest, minBurst, result =>
    if (store t).executionTime < minBurst then
      findNextL1Loop store rest (store t).executionTime (some t)
    else
      findNextL1Loop store rest minBurst result

/-- `Scheduler::findNextL1`. -/
def findNextL1 (store : Nat → ThreadData) (l1 : List Nat) : Option Nat :=
  findNextL1Loop store l1 2147483647 none

/-- Loop body of `Scheduler::findNextL2`: scan with `max_priority` starting
at `-1`, updating on strict `>`. -/
def findNextL2Loop (store : Nat → ThreadData) :
    List Nat → Int → Option Nat → Option Nat
  | [], _, result => result
  | t :: rest, maxPriority, result =>
    if (store t).priority > maxPriority then
      findNextL2Loop store rest (store t).priority (some t)
    else
      findNextL2Loop store rest maxPriority result

/-- `Scheduler::findNextL2`. -/
def findNextL2 (store : Nat → ThreadData) (l2 : List Nat) : Option Nat :=
  findNextL2Loop store l2 (-1) none

/-- `Scheduler::findNextL3`: front of `L[3]`, or `NULL` when empty. -/
def findNextL3 (l3 : List Nat) : Option Nat :=
  l3.head?

/-- `Scheduler::findNext`: return `NULL` at once when all three bands are
empty; otherwise preprocess, then try `findNextL1`, `findNextL2`,
`findNextL3` in that order, removing the selected thread from its queue. -/
def findNext (est : ThreadData → Int) (s : SchedState) :
    SchedState × Option Nat :=
  if s.L1 = [] ∧ s.L2 = [] ∧ s.L3 = [] then
    (s, none)
  else
    let s1 := preprocessThreads est s
    match findNextL1 s1.threads s1.L1 with
    | some result => ({ s1 with L1 := removeFirst result s1.L1 }, some result)
    | none =>
      match findNextL2 s1.threads s1.L2 with
      | some result => ({ s1 with L2 := removeFirst result s1.L2 }, some result)
      | none =>
        match findNextL3 s1.L3 with
        | some result => ({ s1 with L3 := removeFirst result s1.L3 }, some result)
        | none => (s1, none)

/-- `Scheduler::FindNextToRun` simply delegates to `findNext`. -/
def findNextToRun (est : ThreadData → Int) (s : SchedState) :
    SchedState × Option Nat :=
  findNext est s

/-- `Scheduler::maintainQueues`: collect the band-3 threads with
`priority >= 50` (`temp1`), appending each to `L[2]`; remove them from
`L[3]`; then collect the band-2 threads (including the new arrivals) with
`priority >= 100` (`temp2`), appending each to `L[1]`; remove them from
`L[2]`.  Return 1 if `L1_new`, else 2 if `L2_new`, else 0. -/
def maintainQueues (s : SchedState) : SchedState × Int :=
  let temp1 := s.L3.filter (fun t => 50 ≤ (s.threads t).priority)
  let L2a := s.L2 ++ temp1
  let L3a := temp1.foldl (fun l x => removeFirst x l) s.L3
  let temp2 := L2a.filter (fun t => 100 ≤ (s.threads t).priority)
  let L1a := s.L1 ++ temp2
  let L2b := temp2.foldl (fun l x => removeFirst x l) L2a
  ({ s with L1 := L1a, L2 := L2b, L3 := L3a },
   if temp2 ≠ [] then 1 else if temp1 ≠ [] then 2 else 0)

/-- One inner loop of `Scheduler::incTickToThreads`: walk a queue and call
`incTickWaited(1)` on every thread that is not the current thread. -/
def incTickList (cur : Nat) (l : List Nat) (store : Nat → ThreadData) :
    Nat → ThreadData :=
  l.foldl
    (fun st t =>
      if t ≠ cur then
        updThread st t ({ st t with tickWaited := (st t).tickWaited + 1 })
      else st)
    store

/-- `Scheduler::incTickToThreads(amount)`: the loops run over `L[1]`,
`L[2]`, `L[3]` in order; the `amount` parameter is never read. -/
def incTickToThreads (amount : Int) (s : SchedState) : SchedState :=
  { s with threads :=
             incTickList s.currentThread s.L3
               (incTickList s.currentThread s.L2
                 (incTickList s.currentThread s.L1 s.threads)) }

/-- `Scheduler::Run` up to the dispatch boundary (`SWITCH`): when
`finishing` is set, `ASSERT(toBeDestroyed == NULL)` — a fatal assertion
failure is modelled as `none` — and the outgoing thread (the current
thread) is stored in the slot; then the current-thread pointer moves to
`nextThread`, which is marked RUNNING.  The user-state save hooks and the
stack-overflow check are external collaborators with no effect on the
scheduler state. -/
def run (s : SchedState) (nextThread : Nat) (finishing : Bool) :
    Option SchedState :=
  let oldThread := s.currentThread
  let dispatch : SchedState → SchedState := fun s0 =>
    { s0 with currentThread := nextThread,
              threads :=
                  updThread s0.threads nextThread
                    ({ s0.threads nextThread with
                         status := ThreadStatus.RUNNING }) }
  if finishing then
    match s.toBeDestroyed with
    | some _ => none
    | none => some (dispatch { s with toBeDestroyed := some oldThread })
  else
    some (dispatch s)

/-- `Scheduler::CheckToBeDestroyed`: if the slot is occupied, delete the
held thread and clear the slot.  The returned list records the identities
passed to `delete`, in order. -/
def checkToBeDestroyed (s : SchedState) : SchedState × List Nat :=
  match s.toBeDestroyed with
  | some t => ({ s with toBeDestroyed := none }, [t])
  | none => (s, [])

/-- `Scheduler::Print`: a read-only enumeration of the three bands. -/
def printContents (s : SchedState) : List Nat × List Nat × List Nat :=
  (s.L1, s.L2, s.L3)

/-- `Scheduler::getDirty`. -/
def getDirty (s : SchedState) : Bool :=
  s.dirty

/-- `Scheduler::setDirty`. -/
def setDirty (s : SchedState) (d : Bool) : SchedState :=
  { s with dirty := d }

/-- The scheduler operations other than `run`, for stating frame
properties over arbitrary call sequences. -/
inductive SchedOp where
  | ready (t : Nat)
  | findNextOp (est : ThreadData → Int)
  | maintain
  | incTick (amount : Int)
  | checkDestroy
  | printOp
  | setDirtyOp (b : Bool)

/-- Interpretation of one scheduler operation on the state. -/
def applyOp (s : SchedState) : SchedOp → SchedState
  | SchedOp.ready t => readyToRun s t
  | SchedOp.findNextOp est => (findNextToRun est s).1
  | SchedOp.maintain => (maintainQueues s).1
  | SchedOp.incTick n => incTickToThreads n s
  | SchedOp.checkDestroy => (checkToBeDestroyed s).1
  | SchedOp.printOp => s
  | SchedOp.setDirtyOp b => setDirty s b

/-- Run a sequence of scheduler operations from a state. -/
def runOps (s : SchedState) : List SchedOp → SchedState
  | [] => s
  | op :: rest => runOps (applyOp s op) rest

/-- The value most recently passed to `setDirty` in a sequence of
operations, or the default when none occurs. -/
def lastDirty (dflt : Bool) : List SchedOp → Bool
  | [] => dflt
  | SchedOp.setDirtyOp b :: rest => lastDirty b rest
  | SchedOp.ready _ :: rest => lastDirty dflt rest
  | SchedOp.findNextOp _ :: rest => lastDirty dflt rest
  | SchedOp.maintain :: rest => lastDirty dflt rest
  | SchedOp.incTick _ :: rest => lastDirty dflt rest
  | SchedOp.checkDestroy :: rest => lastDirty dflt rest
  | SchedOp.printOp :: rest => lastDirty dflt rest

/-! ### Helper lemmas -/

lemma removeFirst_append (t : Nat) :
    ∀ (pre post : List Nat), t ∉ pre →
      removeFirst t (pre ++ t :: post) = pre ++ post := by
  intro pre
  induction pre with
  | nil => intro post _; simp [removeFirst]
  | cons x xs ih =>
    intro post h
    have hx : x ≠ t := fun hxt => h (hxt ▸ List.mem_cons_self x xs)
    have hxs : t ∉ xs := fun hm => h (List.mem_cons_of_mem x hm)
    simp only [List.cons_append, removeFirst, if_neg hx]
    exact congrArg (x :: ·) (ih post hxs)

lemma findNextL1Loop_skip (store : Nat → ThreadData) :
    ∀ (l : List Nat) (minB : Int) (res : Option Nat),
      (∀ t ∈ l, minB ≤ (store t).executionTime) →
      findNextL1Loop store l minB res = res := by
  intro l
  induction l with
  | nil => intro minB res _; rfl
  | cons x rest ih =>
    intro minB res h
    have hx := h x (List.mem_cons_self x rest)
    simp only [findNextL1Loop, if_neg (not_lt.mpr hx)]
    exact ih minB res (fun t ht => h t (List.mem_cons_of_mem x ht))

lemma findNextL1Loop_found (store : Nat → ThreadData) :
    ∀ (l : List Nat) (minB : Int) (res : Option Nat),
      (∃ t ∈ l, (store t).executionTime < minB) →
      ∃ pre t post,
        l = pre ++ t :: post ∧
        (store t).executionTime < minB ∧
        (∀ u ∈ pre, minB ≤ (store u).executionTime ∨
          (store t).executionTime < (store u).executionTime) ∧
        (∀ u ∈ l, (store u).executionTime < minB →
          (store t).executionTime ≤ (store u).executionTime) ∧
        findNextL1Loop store l minB res = some t := by
  intro l
  induction l with
  | nil =>
    intro minB res h
    obtain ⟨t, ht, _⟩ := h
    exact absurd ht (List.not_mem_nil t)
  | cons x rest ih =>
    intro minB res h
    by_cases hx : (store x).executionTime < minB
    · by_cases hrest : ∃ u ∈ rest, (store u).executionTime < (store x).executionTime
      · obtain ⟨pre, t, post, heq, hlt, hpre, hmin, hloop⟩ :=
          ih (store x).executionTime (some x) hrest
        refine ⟨x :: pre, t, post, by simp [heq], hlt.trans hx, ?_, ?_, ?_⟩
        · intro u hu
          rcases List.mem_cons.mp hu with hux | hup
          · exact Or.inr (hux ▸ hlt)
          · rcases hpre u hup with hle | hlt2
            · exact Or.inr (hlt.trans_le hle)
            · exact Or.inr hlt2
        · intro u hu _
          rcases List.mem_cons.mp hu with hux | hur
          · exact hux ▸ hlt.le
          · by_cases huc : (store u).executionTime < (store x).executionTime
            · exact hmin u hur huc
            · exact (hlt.trans_le (not_lt.mp huc)).le
        · simp only [findNextL1Loop, if_pos hx]
          exact hloop
      · push_neg at hrest
        refine ⟨[], x, rest, rfl, hx, by simp, ?_, ?_⟩
        · intro u hu _
          rcases List.mem_cons.mp hu with hux | hur
          · exact hux ▸ le_refl _
          · exact hrest u hur
        · simp only [findNextL1Loop, if_pos hx]
          exact findNextL1Loop_skip store rest (store x).executionTime (some x) hrest
    · obtain ⟨t0, ht0, hlt0⟩ := h
      have ht0r : t0 ∈ rest := by
        rcases List.mem_cons.mp ht0 with h1 | h2
        · exact absurd (h1 ▸ hlt0) hx
        · exact h2
      obtain ⟨pre, t, post, heq, hlt, hpre, hmin, hloop⟩ :=
        ih minB res ⟨t0, ht0r, hlt0⟩
      refine ⟨x :: pre, t, post, by simp [heq], hlt, ?_, ?_, ?_⟩
      · intro u hu
        rcases List.mem_cons.mp hu with hux | hup
        · exact Or.inl (hux ▸ not_lt.mp hx)
        · exact hpre u hup
      · intro u hu huB
        rcases List.mem_cons.mp hu with hux | hur
        · exact absurd (hux ▸ huB) hx
        · exact hmin u hur huB
      · simp only [findNextL1Loop, if_neg hx]
        exact hloop

lemma findNextL2Loop_skip (store : Nat → ThreadData) :
    ∀ (l : List Nat) (maxP : Int) (res : Option Nat),
      (∀ t ∈ l, (store t).priority ≤ maxP) →
      findNextL2Loop store l maxP res = res := by
  intro l
  induction l with
  | nil => intro maxP res _; rfl
  | cons x rest ih =>
    intro maxP res h
    have hx := h x (List.mem_cons_self x rest)
    simp only [findNextL2Loop, if_neg (not_lt.mpr hx)]
    exact ih maxP res (fun t ht => h t (List.mem_cons_of_mem x ht))

lemma findNextL2Loop_found (store : Nat → ThreadData) :
    ∀ (l : List Nat) (maxP : Int) (res : Option Nat),
      (∃ t ∈ l, maxP < (store t).priority) →
      ∃ pre t post,
        l = pre ++ t :: post ∧
        maxP < (store t).priority ∧
        (∀ u ∈ pre, (store u).priority ≤ maxP ∨
          (store u).priority < (store t).priority) ∧
        (∀ u ∈ l, maxP < (store u).priority →
          (store u).priority ≤ (store t).priority) ∧
        findNextL2Loop store l maxP res = some t := by
  intro l
  induction l with
  | nil =>
    intro maxP res h
    obtain ⟨t, ht, _⟩ := h
    exact absurd ht (List.not_mem_nil t)
  | cons x rest ih =>
    intro maxP res h
    by_cases hx : maxP < (store x).priority
    · by_cases hrest : ∃ u ∈ rest, (store x).priority < (store u).priority
      · obtain ⟨pre, t, post, heq, hlt, hpre, hmax, hloop⟩ :=
          ih (store x).priority (some x) hrest
        refine ⟨x :: pre, t, post, by simp [heq], hx.trans hlt, ?_, ?_, ?_⟩
        · intro u hu
          rcases List.mem_cons.mp hu with hux | hup
          · exact Or.inr (hux ▸ hlt)
          · rcases hpre u hup with hle | hlt2
            · exact Or.inr (hle.trans_lt hlt)
            · exact Or.inr hlt2
        · intro u hu _
          rcases List.mem_cons.mp hu with hux | hur
          · exact hux ▸ hlt.le
          · by_cases huc : (store x).priority < (store u).priority
            · exact hmax u hur huc
            · exact ((not_lt.mp huc).trans hlt.le)
        · simp only [findNextL2Loop, if_pos hx]
          exact hloop
      · push_neg at hrest
        refine ⟨[], x, rest, rfl, hx, by simp, ?_, ?_⟩
        · intro u hu _
          rcases List.mem_cons.mp hu with hux | hur
          · exact hux ▸ le_refl _
          · exact hrest u hur
        · simp only [findNextL2Loop, if_pos hx]
          exact findNextL2Loop_skip store rest (store x).priority (some x) hrest
    · obtain ⟨t0, ht0, hlt0⟩ := h
      have ht0r : t0 ∈ rest := by
        rcases List.mem_cons.mp ht0 with h1 | h2
        · exact absurd (h1 ▸ hlt0) hx
        · exact h2
      obtain ⟨pre, t, post, heq, hlt, hpre, hmax, hloop⟩ :=
        ih maxP res ⟨t0, ht0r, hlt0⟩
      refine ⟨x :: pre, t, post, by simp [heq], hlt, ?_, ?_, ?_⟩
      · intro u hu
        rcases List.mem_cons.mp hu with hux | hup
        · exact Or.inl (hux ▸ not_lt.mp hx)
        · exact hpre u hup
      · intro u hu huB
        rcases List.mem_cons.mp hu with hux | hur
        · exact absurd (hux ▸ huB) hx
        · exact hmax u hur huB
      · simp only [findNextL2Loop, if_neg hx]
        exact hloop

attribute [ext] ThreadData

lemma incTickList_eval (cur : Nat) :
    ∀ (l : List Nat) (store : Nat → ThreadData) (u : Nat),
      incTickList cur l store u =
        if u = cur then store u
        else { store u with
                 tickWaited := (store u).tickWaited + (l.count u : Int) } := by
  intro l
  induction l with
  | nil =>
    intro store u
    by_cases h : u = cur <;> simp [incTickList, h]
  | cons x rest ih =>
    intro store u
    by_cases hxc : x = cur
    · have hstep : incTickList cur (x :: rest) store =
          incTickList cur rest store := by
        simp [incTickList, List.foldl, hxc]
      rw [hstep, ih]
      by_cases hu : u = cur
      · simp [hu]
      · have hux : u ≠ x := fun h => hu (h.trans hxc)
        simp [hu, List.count_cons, hux]
    · have hstep : incTickList cur (x :: rest) store =
          incTickList cur rest
            (updThread store x
              ({ store x with tickWaited := (store x).tickWaited + 1 })) := by
        simp [incTickList, List.foldl, hxc]
      rw [hstep, ih]
      by_cases hu : u = cur
      · have hcx : cur ≠ x := fun h => hxc (h ▸ rfl)
        simp [hu, updThread, hcx]
      · by_cases hux : u = x
        · subst hux
          simp only [if_neg hu, updThread, if_pos rfl, List.count_cons, if_pos rfl]
          apply ThreadData.ext <;> simp
          ring
        · simp [hu, updThread, hux, List.count_cons]

lemma foldl_removeFirst_cons (h0 : Nat) :
    ∀ (xs l : List Nat), (∀ x ∈ xs, x ≠ h0) →
      xs.foldl (fun acc x => removeFirst x acc) (h0 :: l) =
        h0 :: xs.foldl (fun acc x => removeFirst x acc) l := by
  intro xs
  induction xs with
  | nil => intro l _; rfl
  | cons y ys ih =>
    intro l h
    have hy : y ≠ h0 := h y (List.mem_cons_self y ys)
    have hrm : removeFirst y (h0 :: l) = h0 :: removeFirst y l := by
      simp [removeFirst, if_neg (Ne.symm hy)]
    simp only [List.foldl_cons, hrm]
    exact ih (removeFirst y l) (fun x hx => h x (List.mem_cons_of_mem y hx))

lemma foldl_removeFirst_filter (p : Nat → Bool) :
    ∀ l : List Nat,
      (l.filter p).foldl (fun acc x => removeFirst x acc) l =
        l.filter (fun x => !p x) := by
  intro l
  induction l with
  | nil => rfl
  | cons h t ih =>
    by_cases hp : p h
    · have hfil : (h :: t).filter p = h :: t.filter p := by
        simp [List.filter_cons, hp]
      have hrm : removeFirst h (h :: t) = t := by
        simp [removeFirst]
      rw [hfil]
      simp only [List.foldl_cons, hrm, ih]
      simp [List.filter_cons, hp]
    · have hfil : (h :: t).filter p = t.filter p := by
        simp [List.filter_cons, hp]
      rw [hfil]
      have hne : ∀ x ∈ t.filter p, x ≠ h := by
        intro x hx hxh
        have := List.of_mem_filter hx
        exact hp (hxh ▸ this)
      rw [foldl_removeFirst_cons h (t.filter p) t hne, ih]
      simp [List.filter_cons, hp]

lemma maintainQueues_L3 (s : SchedState) :
    (maintainQueues s).1.L3 =
      s.L3.filter (fun t => (s.threads t).priority < 50) := by
  show (s.L3.filter (fun t => 50 ≤ (s.threads t).priority)).foldl
      (fun l x => removeFirst x l) s.L3 = _
  rw [foldl_removeFirst_filter]
  apply List.filter_congr
  intro t _
  by_cases h : (50:Int) ≤ (s.threads t).priority <;>
    simp [h, not_le.mp, Int.not_le]

lemma maintainQueues_L2 (s : SchedState) :
    (maintainQueues s).1.L2 =
      (s.L2 ++ s.L3.filter (fun t => 50 ≤ (s.threads t).priority)).filter
        (fun t => (s.threads t).priority < 100) := by
  show ((s.L2 ++ s.L3.filter (fun t => 50 ≤ (s.threads t).priority)).filter
      (fun t => 100 ≤ (s.threads t).priority)).foldl
      (fun l x => removeFirst x l)
      (s.L2 ++ s.L3.filter (fun t => 50 ≤ (s.threads t).priority)) = _
  rw [foldl_removeFirst_filter]
  apply List.filter_congr
  intro t _
  by_cases h : (100:Int) ≤ (s.threads t).priority <;>
    simp [h, not_le.mp, Int.not_le]

lemma maintainQueues_L1 (s : SchedState) :
    (maintainQueues s).1.L1 =
      s.L1 ++ (s.L2 ++ s.L3.filter (fun t => 50 ≤ (s.threads t).priority)).filter
        (fun t => 100 ≤ (s.threads t).priority) := rfl

lemma maintainQueues_ret (s : SchedState) :
    (maintainQueues s).2 =
      if (s.L2 ++ s.L3.filter (fun t => 50 ≤ (s.threads t).priority)).filter
          (fun t => 100 ≤ (s.threads t).priority) ≠ [] then 1
      else if s.L3.filter (fun t => 50 ≤ (s.threads t).priority) ≠ [] then 2
      else 0 := rfl

lemma maintainQueues_frame (s : SchedState) :
    (maintainQueues s).1.threads = s.threads ∧
    (maintainQueues s).1.currentThread = s.currentThread ∧
    (maintainQueues s).1.toBeDestroyed = s.toBeDestroyed ∧
    (maintainQueues s).1.dirty = s.dirty :=
  ⟨rfl, rfl, rfl, rfl⟩

lemma preprocessThreads_lists (est : ThreadData → Int) (s : SchedState) :
    (preprocessThreads est s).L1 = s.L1 ∧ (preprocessThreads est s).L2 = s.L2 ∧
    (preprocessThreads est s).L3 = s.L3 :=
  ⟨rfl, rfl, rfl⟩

lemma preprocessThreads_other (est : ThreadData → Int) (s : SchedState)
    (u : Nat) (h : u ≠ s.currentThread) :
    (preprocessThreads est s).threads u = s.threads u := by
  simp [preprocessThreads, updThread, if_neg h]

lemma preprocessThreads_current (est : ThreadData → Int) (s : SchedState) :
    (preprocessThreads est s).threads s.currentThread =
      { s.threads s.currentThread with
          executionTime := est (s.threads s.currentThread),
          lastTick := (s.threads s.currentThread).timeUsed,
          timeUsed := 0 } := by
  simp [preprocessThreads, updThread]

lemma findNext_eq_L1 (est : ThreadData → Int) (s : SchedState) (t : Nat)
    (h : ¬(s.L1 = [] ∧ s.L2 = [] ∧ s.L3 = []))
    (hf : findNextL1 (preprocessThreads est s).threads s.L1 = some t) :
    findNext est s =
      ({ preprocessThreads est s with L1 := removeFirst t s.L1 }, some t) := by
  simp only [findNext, if_neg h]
  rw [show (preprocessThreads est s).L1 = s.L1 from rfl, hf]

lemma findNext_eq_L2 (est : ThreadData → Int) (s : SchedState) (t : Nat)
    (h : ¬(s.L1 = [] ∧ s.L2 = [] ∧ s.L3 = []))
    (hf1 : findNextL1 (preprocessThreads est s).threads s.L1 = none)
    (hf2 : findNextL2 (preprocessThreads est s).threads s.L2 = some t) :
    findNext est s =
      ({ preprocessThreads est s with L2 := removeFirst t s.L2 }, some t) := by
  simp only [findNext, if_neg h]
  rw [show (preprocessThreads est s).L1 = s.L1 from rfl, hf1,
      show (preprocessThreads est s).L2 = s.L2 from rfl, hf2]

lemma findNext_eq_L3 (est : ThreadData → Int) (s : SchedState) (t : Nat)
    (h : ¬(s.L1 = [] ∧ s.L2 = [] ∧ s.L3 = []))
    (hf1 : findNextL1 (preprocessThreads est s).threads s.L1 = none)
    (hf2 : findNextL2 (preprocessThreads est s).threads s.L2 = none)
    (hf3 : findNextL3 s.L3 = some t) :
    findNext est s =
      ({ preprocessThreads est s with L3 := removeFirst t s.L3 }, some t) := by
  simp only [findNext, if_neg h]
  rw [show (preprocessThreads est s).L1 = s.L1 from rfl, hf1,
      show (preprocessThreads est s).L2 = s.L2 from rfl, hf2,
      show (preprocessThreads est s).L3 = s.L3 from rfl, hf3]

lemma findNext_eq_none (est : ThreadData → Int) (s : SchedState)
    (h : ¬(s.L1 = [] ∧ s.L2 = [] ∧ s.L3 = []))
    (hf1 : findNextL1 (preprocessThreads est s).threads s.L1 = none)
    (hf2 : findNextL2 (preprocessThreads est s).threads s.L2 = none)
    (hf3 : findNextL3 s.L3 = none) :
    findNext est s = (preprocessThreads est s, none) := by
  simp only [findNext, if_neg h]
  rw [show (preprocessThreads est s).L1 = s.L1 from rfl, hf1,
      show (preprocessThreads est s).L2 = s.L2 from rfl, hf2,
      show (preprocessThreads est s).L3 = s.L3 from rfl, hf3]

lemma findNext_dirty (est : ThreadData → Int) (s : SchedState) :
    (findNext est s).1.dirty = s.dirty := by
  by_cases h : s.L1 = [] ∧ s.L2 = [] ∧ s.L3 = []
  · simp [findNext, h]
  · simp only [findNext, if_neg h]
    cases findNextL1 (preprocessThreads est s).threads
        (preprocessThreads est s).L1 with
    | some r => rfl
    | none =>
      cases findNextL2 (preprocessThreads est s).threads
          (preprocessThreads est s).L2 with
      | some r => rfl
      | none =>
        cases findNextL3 (preprocessThreads est s).L3 with
        | some r => rfl
        | none => rfl

lemma readyToRun_dirty (s : SchedState) (t : Nat) :
    (readyToRun s t).dirty = s.dirty := by
  unfold readyToRun
  split
  · rfl
  · split <;> rfl

lemma applyOp_dirty (s : SchedState) :
    ∀ op : SchedOp, op ≠ SchedOp.setDirtyOp true →
      op ≠ SchedOp.setDirtyOp false → (applyOp s op).dirty = s.dirty := by
  intro op h1 h2
  cases op with
  | ready t => exact readyToRun_dirty s t
  | findNextOp est => exact findNext_dirty est s
  | maintain => rfl
  | incTick n => rfl
  | checkDestroy =>
    show (checkToBeDestroyed s).1.dirty = s.dirty
    unfold checkToBeDestroyed
    cases s.toBeDestroyed <;> rfl
  | printOp => rfl
  | setDirtyOp b => cases b
                    · exact absurd rfl h2
                    · exact absurd rfl h1

lemma runOps_dirty :
    ∀ (ops : List SchedOp) (s : SchedState),
      (runOps s ops).dirty = lastDirty s.dirty ops := by
  intro ops
  induction ops with
  | nil => intro s; rfl
  | cons op rest ih =>
    intro s
    cases op with
    | setDirtyOp b =>
      show (runOps (setDirty s b) rest).dirty = lastDirty b rest
      rw [ih (setDirty s b)]
      rfl
    | ready t =>
      show (runOps (readyToRun s t) rest).dirty = lastDirty s.dirty rest
      rw [ih (readyToRun s t), readyToRun_dirty s t]
    | findNextOp est =>
      show (runOps (findNextToRun est s).1 rest).dirty = lastDirty s.dirty rest
      rw [ih (findNextToRun est s).1]
      rw [show (findNextToRun est s).1.dirty = s.dirty from findNext_dirty est s]
    | maintain =>
      show (runOps (maintainQueues s).1 rest).dirty = lastDirty s.dirty rest
      rw [ih (maintainQueues s).1]
      rfl
    | incTick n =>
      show (runOps (incTickToThreads n s) rest).dirty = lastDirty s.dirty rest
      rw [ih (incTickToThreads n s)]
      rfl
    | checkDestroy =>
      show (runOps (checkToBeDestroyed s).1 rest).dirty = lastDirty s.dirty rest
      rw [ih (checkToBeDestroyed s).1]
      rw [show (checkToBeDestroyed s).1.dirty = s.dirty from ?_]
      unfold checkToBeDestroyed
      cases s.toBeDestroyed <;> rfl
    | printOp =>
      show (runOps s rest).dirty = lastDirty s.dirty rest
      rw [ih s]

lemma incTickToThreads_eval (amount : Int) (s : SchedState) (u : Nat) :
    (incTickToThreads amount s).threads u =
      if u = s.currentThread then s.threads u
      else { s.threads u with
               tickWaited := (s.threads u).tickWaited +
                 ((s.L1.count u : Int) + (s.L2.count u : Int) +
                   (s.L3.count u : Int)) } := by
  show incTickList s.currentThread s.L3
      (incTickList s.currentThread s.L2
        (incTickList s.currentThread s.L1 s.threads)) u = _
  rw [incTickList_eval, incTickList_eval, incTickList_eval]
  by_cases h : u = s.currentThread
  · simp [h]
  · simp only [if_neg h]
    apply ThreadData.ext <;> simp
    ring

lemma filter_ne_nil_iff (p : Nat → Bool) (l : List Nat) :
    l.filter p ≠ [] ↔ ∃ t ∈ l, p t = true := by
  rw [Ne, List.filter_eq_nil_iff]
  push_neg
  simp

/-! ### Concrete fixtures for witnesses and counterexamples -/

/-- Baseline thread bookkeeping record for the concrete scenarios. -/
def dBase : ThreadData :=
  { priority := 0, executionTime := 0, tickWaited := 0, timeUsed := 0,
    lastTick := 0, status := ThreadStatus.READY }

/-- A concrete burst estimator for the scenarios: keep the old estimate. -/
def estKeep : ThreadData → Int := fun d => d.executionTime

/-- Band-1 scenario: estimates 9, 7, 7 for threads 4, 5, 3 in that
insertion order; the current thread 9 is not queued. -/
def wsC1 : SchedState :=
  { L1 := [4, 5, 3], L2 := [], L3 := [],
    threads := fun n =>
      if n = 4 then { dBase with executionTime := 9 }
      else if n = 5 then { dBase with executionTime := 7 }
      else if n = 3 then { dBase with executionTime := 7 }
      else dBase,
    currentThread := 9, toBeDestroyed := none, dirty := false }

/-- A band-1 entry whose estimate equals `0x7fffffff`, with a band-3
thread also ready. -/
def cexC1 : SchedState :=
  { L1 := [0], L2 := [], L3 := [1],
    threads := fun n =>
      if n = 0 then { dBase with executionTime := 2147483647 } else dBase,
    currentThread := 2, toBeDestroyed := none, dirty := false }

/-- Band-2 scenario: priorities 60, 80, 80 for threads 8, 7, 6 in that
insertion order; band 1 empty. -/
def wsC2 : SchedState :=
  { L1 := [], L2 := [8, 7, 6], L3 := [],
    threads := fun n =>
      if n = 8 then { dBase with priority := 60 }
      else if n = 7 then { dBase with priority := 80 }
      else if n = 6 then { dBase with priority := 80 }
      else dBase,
    currentThread := 9, toBeDestroyed := none, dirty := false }

/-- Band 1 empty, a band-2 entry with priority `-1`, a band-3 thread
ready. -/
def cexC2 : SchedState :=
  { L1 := [], L2 := [0], L3 := [1],
    threads := fun n =>
      if n = 0 then { dBase with priority := -1 } else dBase,
    currentThread := 2, toBeDestroyed := none, dirty := false }

/-- Aging scenario: band 3 holds threads 1 (priority 120), 2 (priority 60)
and 3 (priority 0); band 2 holds 8 (priority 0) and 7 (priority 110);
band 1 holds 9. -/
def wsC3 : SchedState :=
  { L1 := [9], L2 := [8, 7], L3 := [1, 2, 3],
    threads := fun n =>
      if n = 1 then { dBase with priority := 120 }
      else if n = 2 then { dBase with priority := 60 }
      else if n = 7 then { dBase with priority := 110 }
      else dBase,
    currentThread := 0, toBeDestroyed := none, dirty := false }

/-- Admission scenario: thread 7 has priority 120. -/
def wsC4 : SchedState :=
  { L1 := [2], L2 := [], L3 := [],
    threads := fun n =>
      if n = 7 then { dBase with priority := 120 } else dBase,
    currentThread := 0, toBeDestroyed := none, dirty := false }

/-- A ready band-3 thread (1) while thread 0 runs. -/
def cexC5 : SchedState :=
  { L1 := [], L2 := [], L3 := [1], threads := fun _ => dBase,
    currentThread := 0, toBeDestroyed := none, dirty := false }

/-- A band-1 entry whose estimate equals `0x7fffffff` and nothing else
ready. -/
def cexC6 : SchedState :=
  { L1 := [0], L2 := [], L3 := [],
    threads := fun n =>
      if n = 0 then { dBase with executionTime := 2147483647 } else dBase,
    currentThread := 2, toBeDestroyed := none, dirty := false }

/-- A single ready band-1 thread with a small estimate. -/
def wsC6 : SchedState :=
  { L1 := [4], L2 := [], L3 := [],
    threads := fun n =>
      if n = 4 then { dBase with executionTime := 7 } else dBase,
    currentThread := 9, toBeDestroyed := none, dirty := false }

/-- Wait-accounting scenario: thread 2 runs while 1, 3 wait. -/
def wsC7 : SchedState :=
  { L1 := [1], L2 := [], L3 := [3], threads := fun _ => dBase,
    currentThread := 2, toBeDestroyed := none, dirty := false }

/-- Dispatch scenario: thread 5 runs, slot empty. -/
def wsC8 : SchedState :=
  { L1 := [], L2 := [], L3 := [], threads := fun _ => dBase,
    currentThread := 5, toBeDestroyed := none, dirty := false }

/-- Preprocessing scenario: thread 0 runs with `timeUsed = 30`, thread 1
waits in band 3. -/
def wsC5 : SchedState :=
  { L1 := [], L2 := [], L3 := [1],
    threads := fun n =>
      if n = 0 then { dBase with timeUsed := 30, executionTime := 11 }
      else dBase,
    currentThread := 0, toBeDestroyed := none, dirty := false }

/-! ### Claims -/

/-- Claim C4: `readyToRun` sets the thread's status to READY and appends it
to the tail of exactly the queue determined by its priority at admission
time — band 1 if `priority ≥ 100`, band 2 if `50 ≤ priority < 100`, band 3
if `priority < 50` — leaving the other two queues and every other thread's
bookkeeping unchanged. -/
theorem claim4_readyToRun_bands (s : SchedState) (t : Nat) :
    ((readyToRun s t).threads t).status = ThreadStatus.READY ∧
    (∀ u, u ≠ t → (readyToRun s t).threads u = s.threads u) ∧
    (100 ≤ (s.threads t).priority →
      (readyToRun s t).L1 = s.L1 ++ [t] ∧ (readyToRun s t).L2 = s.L2 ∧
        (readyToRun s t).L3 = s.L3) ∧
    (50 ≤ (s.threads t).priority → (s.threads t).priority < 100 →
      (readyToRun s t).L2 = s.L2 ++ [t] ∧ (readyToRun s t).L1 = s.L1 ∧
        (readyToRun s t).L3 = s.L3) ∧
    ((s.threads t).priority < 50 →
      (readyToRun s t).L3 = s.L3 ++ [t] ∧ (readyToRun s t).L1 = s.L1 ∧
        (readyToRun s t).L2 = s.L2) := by
  unfold readyToRun
  by_cases h1 : (s.threads t).priority ≥ 100
  · simp only [if_pos h1]
    refine ⟨?_, ?_, ?_, ?_, ?_⟩
    · simp [updThread]
    · intro u hu; simp [updThread, hu]
    · intro _; exact ⟨trivial, trivial, trivial⟩
    · intro _ h2; exact absurd h1 (by omega)
    · intro h3; exact absurd h1 (by omega)
  · simp only [if_neg h1]
    by_cases h2 : (s.threads t).priority ≥ 50
    · simp only [if_pos h2]
      refine ⟨?_, ?_, ?_, ?_, ?_⟩
      · simp [updThread]
      · intro u hu; simp [updThread, hu]
      · intro hc; exact absurd hc h1
      · intro _ _; exact ⟨trivial, trivial, trivial⟩
      · intro h3; exact absurd h2 (by omega)
    · simp only [if_neg h2]
      refine ⟨?_, ?_, ?_, ?_, ?_⟩
      · simp [updThread]
      · intro u hu; simp [updThread, hu]
      · intro hc; exact absurd hc h1
      · intro hc _; exact absurd hc h2
      · intro _; exact ⟨trivial, trivial, trivial⟩

/-- Witness for C4 at a concrete admission: thread 7 with priority 120
lands at the tail of band 1, marked READY. -/
theorem claim4_witness :
    (100 : Int) ≤ (wsC4.threads 7).priority ∧
    (readyToRun wsC4 7).L1 = wsC4.L1 ++ [7] ∧
    ((readyToRun wsC4 7).threads 7).status = ThreadStatus.READY :=
  ⟨by decide, ((claim4_readyToRun_bands wsC4 7).2.2.1 (by decide)).1,
    (claim4_readyToRun_bands wsC4 7).1⟩

/-- Claim C7: `incTickToThreads(amount)` leaves the current thread alone,
adds exactly one to the wait counter of every thread occurring once in the
three bands other than the current thread, leaves unqueued threads alone,
and ignores `amount` entirely. -/
theorem claim7_incTickToThreads (amount : Int) (s : SchedState) (t : Nat) :
    (incTickToThreads amount s).threads s.currentThread =
      s.threads s.currentThread ∧
    (t ≠ s.currentThread → (s.L1 ++ s.L2 ++ s.L3).count t = 1 →
      (incTickToThreads amount s).threads t =
        { s.threads t with tickWaited := (s.threads t).tickWaited + 1 }) ∧
    (t ∉ s.L1 → t ∉ s.L2 → t ∉ s.L3 →
      (incTickToThreads amount s).threads t = s.threads t) ∧
    (∀ amount2 : Int, incTickToThreads amount s = incTickToThreads amount2 s) := by
  refine ⟨?_, ?_, ?_, fun _ => rfl⟩
  · rw [incTickToThreads_eval]
    simp
  · intro ht hcount
    rw [incTickToThreads_eval, if_neg ht]
    rw [List.count_append, List.count_append] at hcount
    have hc : (s.L1.count t : Int) + (s.L2.count t : Int) +
        (s.L3.count t : Int) = 1 := by
      exact_mod_cast hcount
    rw [hc]
  · intro h1 h2 h3
    rw [incTickToThreads_eval]
    by_cases h : t = s.currentThread
    · simp [h]
    · simp only [if_neg h]
      rw [List.count_eq_zero.mpr h1, List.count_eq_zero.mpr h2,
          List.count_eq_zero.mpr h3]
      simp

/-- Witness for C7: with thread 2 running, the waiting threads 1 (band 1)
and 3 (band 3) each gain one tick and the current thread is untouched,
whatever `amount` is passed. -/
theorem claim7_witness :
    ((1 : Nat) ≠ wsC7.currentThread ∧ (wsC7.L1 ++ wsC7.L2 ++ wsC7.L3).count 1 = 1) ∧
    (incTickToThreads 42 wsC7).threads 1 =
      { wsC7.threads 1 with tickWaited := (wsC7.threads 1).tickWaited + 1 } ∧
    (incTickToThreads 42 wsC7).threads wsC7.currentThread =
      wsC7.threads wsC7.currentThread :=
  ⟨⟨by decide, by decide⟩,
    (claim7_incTickToThreads 42 wsC7 1).2.1 (by decide) (by decide),
    (claim7_incTickToThreads 42 wsC7 1).1⟩

/-- Claim C8: `run(nextThread, isFinishing=true)` demands an empty
pending-destruction slot (fatal otherwise), stores the outgoing — i.e.
previously current — thread there, and the following `checkToBeDestroyed`
destroys exactly that thread, exactly once, leaving the slot empty. -/
theorem claim8_run_checkToBeDestroyed (s : SchedState) (nextThread : Nat) :
    (∀ x, s.toBeDestroyed = some x → run s nextThread true = none) ∧
    (s.toBeDestroyed = none →
      ∃ s2, run s nextThread true = some s2 ∧
        s2.toBeDestroyed = some s.currentThread ∧
        (checkToBeDestroyed s2).2 = [s.currentThread] ∧
        (checkToBeDestroyed s2).1.toBeDestroyed = none) := by
  constructor
  · intro x hx
    simp [run, hx]
  · intro h
    refine ⟨{ s with toBeDestroyed := some s.currentThread,
                     currentThread := nextThread,
                     threads := updThread s.threads nextThread
                       ({ s.threads nextThread with
                            status := ThreadStatus.RUNNING }) },
      ?_, rfl, rfl, rfl⟩
    simp [run, h]

/-- Witness for C8: with the slot empty and thread 5 running, switching
away with `isFinishing` stores thread 5, which `checkToBeDestroyed` then
destroys exactly once. -/
theorem claim8_witness :
    wsC8.toBeDestroyed = none ∧
    ∃ s2, run wsC8 6 true = some s2 ∧
      s2.toBeDestroyed = some wsC8.currentThread ∧
      (checkToBeDestroyed s2).2 = [wsC8.currentThread] ∧
      (checkToBeDestroyed s2).1.toBeDestroyed = none :=
  ⟨rfl, (claim8_run_checkToBeDestroyed wsC8 6).2 rfl⟩

/-- Claim C10: the dirty flag is false after construction and is changed
only by `setDirty`; across any sequence of scheduler operations,
`getDirty` reports the value most recently passed to `setDirty`, or false
when it was never called. -/
theorem claim10_dirty (store : Nat → ThreadData) (cur : Nat)
    (ops : List SchedOp) :
    getDirty (initScheduler store cur) = false ∧
    getDirty (runOps (initScheduler store cur) ops) = lastDirty false ops :=
  ⟨rfl, runOps_dirty ops (initScheduler store cur)⟩

/-- Claim C3: one `maintainQueues` call moves every band-3 thread with
current priority ≥ 50 to band 2, then rescans band 2 including the new
arrivals and moves every thread with priority ≥ 100 to band 1 (a thread
can go 3 → 2 → 1 in one call); threads that have not crossed their band
boundary stay where they are, nothing moves to a lower band, thread
bookkeeping is untouched, and the returned signal is 1 when any thread was
promoted into band 1, else 2 when any was promoted into band 2, else 0. -/
theorem claim3_maintainQueues (s : SchedState) :
    (maintainQueues s).1.L3 =
      s.L3.filter (fun t => (s.threads t).priority < 50) ∧
    (maintainQueues s).1.L2 =
      (s.L2 ++ s.L3.filter (fun t => 50 ≤ (s.threads t).priority)).filter
        (fun t => (s.threads t).priority < 100) ∧
    (maintainQueues s).1.L1 =
      s.L1 ++
        (s.L2 ++ s.L3.filter (fun t => 50 ≤ (s.threads t).priority)).filter
          (fun t => 100 ≤ (s.threads t).priority) ∧
    (maintainQueues s).1.threads = s.threads ∧
    (∀ t ∈ s.L3, 50 ≤ (s.threads t).priority → (s.threads t).priority < 100 →
      t ∈ (maintainQueues s).1.L2) ∧
    (∀ t ∈ s.L3, 100 ≤ (s.threads t).priority →
      t ∈ (maintainQueues s).1.L1) ∧
    (∀ t ∈ s.L3, (s.threads t).priority < 50 →
      t ∈ (maintainQueues s).1.L3) ∧
    (∀ t ∈ s.L2, (s.threads t).priority < 100 →
      t ∈ (maintainQueues s).1.L2) ∧
    (∀ t ∈ s.L1, t ∈ (maintainQueues s).1.L1) ∧
    ((maintainQueues s).2 = 1 ↔
      ∃ t ∈ s.L2 ++ s.L3.filter (fun u => 50 ≤ (s.threads u).priority),
        100 ≤ (s.threads t).priority) ∧
    ((maintainQueues s).2 = 2 ↔
      (∀ t ∈ s.L2 ++ s.L3.filter (fun u => 50 ≤ (s.threads u).priority),
        (s.threads t).priority < 100) ∧
        ∃ t ∈ s.L3, 50 ≤ (s.threads t).priority) ∧
    ((maintainQueues s).2 = 0 ↔
      (∀ t ∈ s.L2 ++ s.L3.filter (fun u => 50 ≤ (s.threads u).priority),
        (s.threads t).priority < 100) ∧
        ∀ t ∈ s.L3, ¬ 50 ≤ (s.threads t).priority) := by
  have hL3 := maintainQueues_L3 s
  have hL2 := maintainQueues_L2 s
  have hL1 := maintainQueues_L1 s
  have hret := maintainQueues_ret s
  have hAiff : (s.L2 ++ s.L3.filter
        (fun u => 50 ≤ (s.threads u).priority)).filter
        (fun u => 100 ≤ (s.threads u).priority) ≠ [] ↔
      ∃ t ∈ s.L2 ++ s.L3.filter (fun u => 50 ≤ (s.threads u).priority),
        100 ≤ (s.threads t).priority := by
    rw [filter_ne_nil_iff]
    simp only [decide_eq_true_eq]
  have hBiff : s.L3.filter (fun u => 50 ≤ (s.threads u).priority) ≠ [] ↔
      ∃ t ∈ s.L3, 50 ≤ (s.threads t).priority := by
    rw [filter_ne_nil_iff]
    simp only [decide_eq_true_eq]
  refine ⟨hL3, hL2, hL1, rfl, ?_, ?_, ?_, ?_, ?_, ?_, ?_, ?_⟩
  · intro t ht h50 h100
    rw [hL2]
    simp only [List.mem_filter, List.mem_append, decide_eq_true_eq]
    refine ⟨Or.inr ?_, h100⟩
    exact ⟨ht, h50⟩
  · intro t ht h100
    rw [hL1]
    apply List.mem_append_right
    simp only [List.mem_filter, List.mem_append, decide_eq_true_eq]
    refine ⟨Or.inr ?_, h100⟩
    exact ⟨ht, by omega⟩
  · intro t ht h50
    rw [hL3]
    simp only [List.mem_filter, decide_eq_true_eq]
    exact ⟨ht, h50⟩
  · intro t ht h100
    rw [hL2]
    simp only [List.mem_filter, List.mem_append, decide_eq_true_eq]
    exact ⟨Or.inl ht, h100⟩
  · intro t ht
    rw [hL1]
    exact List.mem_append_left _ ht
  · rw [hret]
    by_cases hA : (s.L2 ++ s.L3.filter
        (fun u => 50 ≤ (s.threads u).priority)).filter
        (fun u => 100 ≤ (s.threads u).priority) ≠ []
    · rw [if_pos hA]
      exact iff_of_true rfl (hAiff.mp hA)
    · rw [if_neg hA]
      have hnex := fun hex => hA (hAiff.mpr hex)
      by_cases hB : s.L3.filter (fun u => 50 ≤ (s.threads u).priority) ≠ []
      · rw [if_pos hB]
        exact iff_of_false (by omega) hnex
      · rw [if_neg hB]
        exact iff_of_false (by omega) hnex
  · rw [hret]
    by_cases hA : (s.L2 ++ s.L3.filter
        (fun u => 50 ≤ (s.threads u).priority)).filter
        (fun u => 100 ≤ (s.threads u).priority) ≠ []
    · rw [if_pos hA]
      refine iff_of_false (by omega) ?_
      rintro ⟨hall, -⟩
      obtain ⟨t, htmem, ht100⟩ := hAiff.mp hA
      exact absurd ht100 (by have := hall t htmem; omega)
    · rw [if_neg hA]
      have hall : ∀ t ∈ s.L2 ++ s.L3.filter
          (fun u => 50 ≤ (s.threads u).priority),
          (s.threads t).priority < 100 := by
        intro t htmem
        by_contra hge
        exact hA (hAiff.mpr ⟨t, htmem, by omega⟩)
      by_cases hB : s.L3.filter (fun u => 50 ≤ (s.threads u).priority) ≠ []
      · rw [if_pos hB]
        exact iff_of_true rfl ⟨hall, hBiff.mp hB⟩
      · rw [if_neg hB]
        refine iff_of_false (by omega) ?_
        rintro ⟨-, hex⟩
        exact hB (hBiff.mpr hex)
  · rw [hret]
    by_cases hA : (s.L2 ++ s.L3.filter
        (fun u => 50 ≤ (s.threads u).priority)).filter
        (fun u => 100 ≤ (s.threads u).priority) ≠ []
    · rw [if_pos hA]
      refine iff_of_false (by omega) ?_
      rintro ⟨hall, -⟩
      obtain ⟨t, htmem, ht100⟩ := hAiff.mp hA
      exact absurd ht100 (by have := hall t htmem; omega)
    · rw [if_neg hA]
      have hall : ∀ t ∈ s.L2 ++ s.L3.filter
          (fun u => 50 ≤ (s.threads u).priority),
          (s.threads t).priority < 100 := by
        intro t htmem
        by_contra hge
        exact hA (hAiff.mpr ⟨t, htmem, by omega⟩)
      by_cases hB : s.L3.filter (fun u => 50 ≤ (s.threads u).priority) ≠ []
      · rw [if_pos hB]
        refine iff_of_false (by omega) ?_
        rintro ⟨-, hnone⟩
        obtain ⟨t, htmem, ht50⟩ := hBiff.mp hB
        exact hnone t htmem ht50
      · rw [if_neg hB]
        refine iff_of_true rfl ⟨hall, ?_⟩
        intro t htmem ht50
        exact hB (hBiff.mpr ⟨t, htmem, ht50⟩)

/-- Witness for C3 at a concrete state: with band 3 = [1, 2, 3]
(priorities 120, 60, 0) and band 2 = [8, 7] (priorities 0, 110), one pass
sends 7 and 1 to band 1, 2 to band 2, keeps 3 and 8, and returns 1. -/
theorem claim3_witness :
    (maintainQueues wsC3).1.L3 =
      wsC3.L3.filter (fun t => (wsC3.threads t).priority < 50) ∧
    (1 ∈ wsC3.L3 ∧ (100 : Int) ≤ (wsC3.threads 1).priority) ∧
    1 ∈ (maintainQueues wsC3).1.L1 ∧
    (maintainQueues wsC3).2 = 1 :=
  ⟨(claim3_maintainQueues wsC3).1, ⟨by decide, by decide⟩,
    (claim3_maintainQueues wsC3).2.2.2.2.2.1 1 (by decide) (by decide),
    ((claim3_maintainQueues wsC3).2.2.2.2.2.2.2.2.2.1).mpr
      ⟨7, by decide, by decide⟩⟩

/-- Claim C9: `maintainQueues` preserves relative insertion order — the
threads it does not promote keep their relative order within their band
(they form a sublist of the old band), and the threads promoted in one
pass are appended after the destination band's existing entries, in the
relative order they had in the source band. -/
theorem claim9_maintainQueues_order (s : SchedState) :
    ((maintainQueues s).1.L3).Sublist s.L3 ∧
    (maintainQueues s).1.L2 =
      s.L2.filter (fun t => (s.threads t).priority < 100) ++
        (s.L3.filter (fun t => 50 ≤ (s.threads t).priority)).filter
          (fun t => (s.threads t).priority < 100) ∧
    (s.L2.filter (fun t => (s.threads t).priority < 100)).Sublist s.L2 ∧
    ((s.L3.filter (fun t => 50 ≤ (s.threads t).priority)).filter
        (fun t => (s.threads t).priority < 100)).Sublist s.L3 ∧
    (maintainQueues s).1.L1 =
      s.L1 ++
        (s.L2 ++ s.L3.filter (fun t => 50 ≤ (s.threads t).priority)).filter
          (fun t => 100 ≤ (s.threads t).priority) ∧
    ((s.L2 ++ s.L3.filter (fun t => 50 ≤ (s.threads t).priority)).filter
        (fun t => 100 ≤ (s.threads t).priority)).Sublist
      (s.L2 ++ s.L3.filter (fun t => 50 ≤ (s.threads t).priority)) := by
  refine ⟨?_, ?_, List.filter_sublist _, ?_, maintainQueues_L1 s,
    List.filter_sublist _⟩
  · rw [maintainQueues_L3]
    exact List.filter_sublist _
  · rw [maintainQueues_L2, List.filter_append]
  · exact (List.filter_sublist _).trans (List.filter_sublist _)

lemma preprocessThreads_priority (est : ThreadData → Int) (s : SchedState)
    (u : Nat) :
    ((preprocessThreads est s).threads u).priority = (s.threads u).priority := by
  by_cases h : u = s.currentThread
  · subst h
    rw [preprocessThreads_current]
  · rw [preprocessThreads_other est s u h]

/-- Claim C1 as stated is false on the code: with band 1 holding exactly
one thread whose `executionEstimate` equals `0x7fffffff`, `findNextToRun`
skips band 1 entirely (the strict `<` against the `0x7fffffff` sentinel
never fires) and returns the band-3 thread instead, leaving band 1
untouched. -/
theorem claim1_counterexample :
    cexC1.L1 = [0] ∧
    (findNextToRun estKeep cexC1).2 = some 1 ∧
    (1 : Nat) ∉ cexC1.L1 ∧
    (findNextToRun estKeep cexC1).1.L1 = cexC1.L1 := by decide

/-- Claim C1, amended: when band 1 is non-empty, the running thread is not
queued in band 1, and at least one band-1 entry has `executionEstimate`
below `0x7fffffff`, `findNextToRun` selects the band-1 entry with the
smallest estimate — ties broken in favor of the first-inserted — and
removes exactly that entry from band 1, leaving bands 2 and 3 unchanged. -/
theorem claim1_findNextL1_shortest (est : ThreadData → Int) (s : SchedState)
    (hcur : s.currentThread ∉ s.L1)
    (hbelow : ∃ t ∈ s.L1, (s.threads t).executionTime < 2147483647) :
    ∃ t pre post,
      s.L1 = pre ++ t :: post ∧
      (∀ u ∈ pre,
        (s.threads t).executionTime < (s.threads u).executionTime) ∧
      (∀ u ∈ s.L1,
        (s.threads t).executionTime ≤ (s.threads u).executionTime) ∧
      (findNextToRun est s).2 = some t ∧
      (findNextToRun est s).1.L1 = pre ++ post ∧
      (findNextToRun est s).1.L2 = s.L2 ∧
      (findNextToRun est s).1.L3 = s.L3 := by
  obtain ⟨t0, ht0, hlt0⟩ := hbelow
  have hne : ¬(s.L1 = [] ∧ s.L2 = [] ∧ s.L3 = []) := by
    rintro ⟨h1, -, -⟩
    rw [h1] at ht0
    exact List.not_mem_nil t0 ht0
  have hagree : ∀ u ∈ s.L1,
      (preprocessThreads est s).threads u = s.threads u := by
    intro u hu
    exact preprocessThreads_other est s u (fun he => hcur (he ▸ hu))
  obtain ⟨pre, t, post, heq, hlt, hpre, hmin, hloop⟩ :=
    findNextL1Loop_found (preprocessThreads est s).threads s.L1 2147483647
      none ⟨t0, ht0, by rw [hagree t0 ht0]; exact hlt0⟩
  have hmempre : ∀ u ∈ pre, u ∈ s.L1 := by
    intro u hu
    rw [heq]
    exact List.mem_append_left _ hu
  have htmem : t ∈ s.L1 := by
    rw [heq]
    exact List.mem_append_right _ (List.mem_cons_self t post)
  have hKt : (preprocessThreads est s).threads t = s.threads t :=
    hagree t htmem
  have hltK : (s.threads t).executionTime < 2147483647 := by
    rw [← hKt]
    exact hlt
  have hpre' : ∀ u ∈ pre,
      (s.threads t).executionTime < (s.threads u).executionTime := by
    intro u hu
    have hu1 := hmempre u hu
    have hd := hpre u hu
    rw [hagree u hu1, hKt] at hd
    rcases hd with hge | hlt2
    · omega
    · exact hlt2
  have hmin' : ∀ u ∈ s.L1,
      (s.threads t).executionTime ≤ (s.threads u).executionTime := by
    intro u hu
    have hKu := hagree u hu
    by_cases hc : (s.threads u).executionTime < 2147483647
    · have hd := hmin u hu (by rw [hKu]; exact hc)
      rw [hKu, hKt] at hd
      exact hd
    · omega
  have hnotpre : t ∉ pre := fun hmem => absurd (hpre' t hmem) (lt_irrefl _)
  have heqState := findNext_eq_L1 est s t hne hloop
  refine ⟨t, pre, post, heq, hpre', hmin', ?_, ?_, ?_, ?_⟩
  · show (findNext est s).2 = some t
    rw [heqState]
  · show (findNext est s).1.L1 = pre ++ post
    rw [heqState]
    show removeFirst t s.L1 = pre ++ post
    rw [heq]
    exact removeFirst_append t pre post hnotpre
  · show (findNext est s).1.L2 = s.L2
    rw [heqState]
    rfl
  · show (findNext est s).1.L3 = s.L3
    rw [heqState]
    rfl

/-- Witness for the amended C1: band 1 = [4, 5, 3] with estimates 9, 7, 7;
both hypotheses hold concretely and the theorem yields the selection. -/
theorem claim1_witness :
    (wsC1.currentThread ∉ wsC1.L1 ∧
      ∃ t ∈ wsC1.L1, (wsC1.threads t).executionTime < 2147483647) ∧
    ∃ t pre post,
      wsC1.L1 = pre ++ t :: post ∧
      (∀ u ∈ pre,
        (wsC1.threads t).executionTime < (wsC1.threads u).executionTime) ∧
      (∀ u ∈ wsC1.L1,
        (wsC1.threads t).executionTime ≤ (wsC1.threads u).executionTime) ∧
      (findNextToRun estKeep wsC1).2 = some t ∧
      (findNextToRun estKeep wsC1).1.L1 = pre ++ post ∧
      (findNextToRun estKeep wsC1).1.L2 = wsC1.L2 ∧
      (findNextToRun estKeep wsC1).1.L3 = wsC1.L3 :=
  ⟨⟨by decide, by decide⟩,
    claim1_findNextL1_shortest estKeep wsC1 (by decide) (by decide)⟩

/-- Claim C2 as stated is false on the code: with band 1 empty and band 2
holding exactly one thread of priority `-1`, band 2 yields no candidate
(the scan starts its maximum at the `-1` sentinel and uses strict `>`), so
`findNextToRun` returns the band-3 front instead of the band-2 entry with
the largest priority, and band 2 is left untouched. -/
theorem claim2_counterexample :
    cexC2.L1 = [] ∧
    cexC2.L2 = [0] ∧
    (findNextToRun estKeep cexC2).2 = some 1 ∧
    (findNextToRun estKeep cexC2).1.L2 = [0] := by decide

/-- Claim C2, amended: when the running thread is not queued in band 1 and
every band-1 entry's estimate is at least `0x7fffffff` (in particular when
band 1 is empty), band 1 yields no candidate, and then: if band 2 holds an
entry with priority ≥ 0, `findNextToRun` selects the band-2 entry with the
largest priority — ties broken in favor of the first-inserted — and
removes exactly it from band 2; if instead every band-2 entry has negative
priority (in particular when band 2 is empty), it returns and removes the
front element of band 3. -/
theorem claim2_band_order (est : ThreadData → Int) (s : SchedState)
    (hcur1 : s.currentThread ∉ s.L1)
    (hL1 : ∀ u ∈ s.L1, 2147483647 ≤ (s.threads u).executionTime) :
    ((∃ u ∈ s.L2, 0 ≤ (s.threads u).priority) →
      ∃ t pre post,
        s.L2 = pre ++ t :: post ∧
        (∀ u ∈ pre, (s.threads u).priority < (s.threads t).priority) ∧
        (∀ u ∈ s.L2, (s.threads u).priority ≤ (s.threads t).priority) ∧
        (findNextToRun est s).2 = some t ∧
        (findNextToRun est s).1.L2 = pre ++ post ∧
        (findNextToRun est s).1.L1 = s.L1 ∧
        (findNextToRun est s).1.L3 = s.L3) ∧
    ((∀ u ∈ s.L2, (s.threads u).priority < 0) →
      ∀ front rest, s.L3 = front :: rest →
        (findNextToRun est s).2 = some front ∧
        (findNextToRun est s).1.L3 = rest ∧
        (findNextToRun est s).1.L1 = s.L1 ∧
        (findNextToRun est s).1.L2 = s.L2) := by
  have hskip1 : findNextL1 (preprocessThreads est s).threads s.L1 = none := by
    apply findNextL1Loop_skip
    intro u hu
    rw [preprocessThreads_other est s u (fun he => hcur1 (he ▸ hu))]
    exact hL1 u hu
  constructor
  · rintro ⟨u0, hu0, hp0⟩
    have hne : ¬(s.L1 = [] ∧ s.L2 = [] ∧ s.L3 = []) := by
      rintro ⟨-, h2, -⟩
      rw [h2] at hu0
      exact List.not_mem_nil u0 hu0
    obtain ⟨pre, t, post, heq, hlt, hpre, hmax, hloop⟩ :=
      findNextL2Loop_found (preprocessThreads est s).threads s.L2 (-1) none
        ⟨u0, hu0, by rw [preprocessThreads_priority]; omega⟩
    have hpt : (0 : Int) ≤ (s.threads t).priority := by
      rw [preprocessThreads_priority] at hlt
      omega
    have hpre' : ∀ u ∈ pre,
        (s.threads u).priority < (s.threads t).priority := by
      intro u hu
      have hd := hpre u hu
      rw [preprocessThreads_priority, preprocessThreads_priority] at hd
      rcases hd with hle | hlt2
      · omega
      · exact hlt2
    have hmax' : ∀ u ∈ s.L2,
        (s.threads u).priority ≤ (s.threads t).priority := by
      intro u hu
      by_cases hc : (-1 : Int) < (s.threads u).priority
      · have hd := hmax u hu (by rw [preprocessThreads_priority]; exact hc)
        rw [preprocessThreads_priority, preprocessThreads_priority] at hd
        exact hd
      · omega
    have hnotpre : t ∉ pre := fun hmem => absurd (hpre' t hmem) (lt_irrefl _)
    have heqState := findNext_eq_L2 est s t hne hskip1 hloop
    refine ⟨t, pre, post, heq, hpre', hmax', ?_, ?_, ?_, ?_⟩
    · show (findNext est s).2 = some t
      rw [heqState]
    · show (findNext est s).1.L2 = pre ++ post
      rw [heqState]
      show removeFirst t s.L2 = pre ++ post
      rw [heq]
      exact removeFirst_append t pre post hnotpre
    · show (findNext est s).1.L1 = s.L1
      rw [heqState]
      rfl
    · show (findNext est s).1.L3 = s.L3
      rw [heqState]
      rfl
  · intro hneg front rest hL3
    have hne : ¬(s.L1 = [] ∧ s.L2 = [] ∧ s.L3 = []) := by
      rintro ⟨-, -, h3⟩
      rw [hL3] at h3
      exact List.cons_ne_nil front rest h3
    have hskip2 : findNextL2 (preprocessThreads est s).threads s.L2 = none := by
      apply findNextL2Loop_skip
      intro u hu
      rw [preprocessThreads_priority]
      have := hneg u hu
      omega
    have hf3 : findNextL3 s.L3 = some front := by
      rw [hL3]
      rfl
    have heqState := findNext_eq_L3 est s front hne hskip1 hskip2 hf3
    refine ⟨?_, ?_, ?_, ?_⟩
    · show (findNext est s).2 = some front
      rw [heqState]
    · show (findNext est s).1.L3 = rest
      rw [heqState]
      show removeFirst front s.L3 = rest
      rw [hL3]
      simp [removeFirst]
    · show (findNext est s).1.L1 = s.L1
      rw [heqState]
      rfl
    · show (findNext est s).1.L2 = s.L2
      rw [heqState]
      rfl

/-- Witness for the amended C2: band 1 empty, band 2 = [8, 7, 6] with
priorities 60, 80, 80; the hypotheses hold concretely and the theorem
yields both the band-2 selection rule and the band-3 fallback rule. -/
theorem claim2_witness :
    (wsC2.currentThread ∉ wsC2.L1 ∧
      ∀ u ∈ wsC2.L1, 2147483647 ≤ (wsC2.threads u).executionTime) ∧
    ((∃ u ∈ wsC2.L2, 0 ≤ (wsC2.threads u).priority) →
      ∃ t pre post,
        wsC2.L2 = pre ++ t :: post ∧
        (∀ u ∈ pre, (wsC2.threads u).priority < (wsC2.threads t).priority) ∧
        (∀ u ∈ wsC2.L2,
          (wsC2.threads u).priority ≤ (wsC2.threads t).priority) ∧
        (findNextToRun estKeep wsC2).2 = some t ∧
        (findNextToRun estKeep wsC2).1.L2 = pre ++ post ∧
        (findNextToRun estKeep wsC2).1.L1 = wsC2.L1 ∧
        (findNextToRun estKeep wsC2).1.L3 = wsC2.L3) :=
  ⟨⟨by decide, by decide⟩,
    (claim2_band_order estKeep wsC2 (by decide) (by decide)).1⟩

/-- Claim C6 as stated is false on the code: a non-empty band 1 whose only
entry has `executionEstimate = 0x7fffffff` (with bands 2 and 3 empty)
makes `findNextToRun` return "none" even though a thread is ready. -/
theorem claim6_counterexample :
    cexC6.L1 ≠ [] ∧
    (findNextToRun estKeep cexC6).2 = none := by decide

/-- Claim C6, amended: provided the running thread is not queued in band 1,
every band-1 entry's estimate is below `0x7fffffff`, and every band-2
entry's priority is non-negative, `findNextToRun` returns "none" exactly
when all three bands are empty; without those provisos it can return
"none" with a thread still ready. -/
theorem claim6_none_iff_empty (est : ThreadData → Int) (s : SchedState)
    (hcur1 : s.currentThread ∉ s.L1)
    (h1 : ∀ u ∈ s.L1, (s.threads u).executionTime < 2147483647)
    (h2 : ∀ u ∈ s.L2, 0 ≤ (s.threads u).priority) :
    ((findNextToRun est s).2 = none ↔
      s.L1 = [] ∧ s.L2 = [] ∧ s.L3 = []) := by
  constructor
  · intro hnone
    by_contra hne
    cases hL1e : s.L1 with
    | cons a as =>
      have hmem : a ∈ s.L1 := by
        rw [hL1e]
        exact List.mem_cons_self a as
      obtain ⟨pre, t, post, -, -, -, -, hloop⟩ :=
        findNextL1Loop_found (preprocessThreads est s).threads s.L1
          2147483647 none
          ⟨a, hmem, by
            rw [preprocessThreads_other est s a
              (fun he => hcur1 (he ▸ hmem))]
            exact h1 a hmem⟩
      have hne1 : ¬(s.L1 = [] ∧ s.L2 = [] ∧ s.L3 = []) := by
        rintro ⟨hx, -, -⟩
        rw [hL1e] at hx
        exact List.cons_ne_nil a as hx
      have := findNext_eq_L1 est s t hne1 hloop
      have hsome : (findNextToRun est s).2 = some t := by
        show (findNext est s).2 = some t
        rw [this]
      rw [hsome] at hnone
      cases hnone
    | nil =>
      have hskip1 : findNextL1 (preprocessThreads est s).threads
          s.L1 = none := by
        rw [hL1e]
        rfl
      cases hL2e : s.L2 with
      | cons b bs =>
        have hmem : b ∈ s.L2 := by
          rw [hL2e]
          exact List.mem_cons_self b bs
        obtain ⟨pre, t, post, -, -, -, -, hloop⟩ :=
          findNextL2Loop_found (preprocessThreads est s).threads s.L2
            (-1) none
            ⟨b, hmem, by
              rw [preprocessThreads_priority]
              have := h2 b hmem
              omega⟩
        have hne1 : ¬(s.L1 = [] ∧ s.L2 = [] ∧ s.L3 = []) := by
          rintro ⟨-, hx, -⟩
          rw [hL2e] at hx
          exact List.cons_ne_nil b bs hx
        have := findNext_eq_L2 est s t hne1 hskip1 hloop
        have hsome : (findNextToRun est s).2 = some t := by
          show (findNext est s).2 = some t
          rw [this]
        rw [hsome] at hnone
        cases hnone
      | nil =>
        have hskip2 : findNextL2 (preprocessThreads est s).threads
            s.L2 = none := by
          rw [hL2e]
          rfl
        cases hL3e : s.L3 with
        | nil => exact hne ⟨hL1e, hL2e, hL3e⟩
        | cons c cs =>
          have hne1 : ¬(s.L1 = [] ∧ s.L2 = [] ∧ s.L3 = []) := by
            rintro ⟨-, -, hx⟩
            rw [hL3e] at hx
            exact List.cons_ne_nil c cs hx
          have hf3 : findNextL3 s.L3 = some c := by
            rw [hL3e]
            rfl
          have := findNext_eq_L3 est s c hne1 hskip1 hskip2 hf3
          have hsome : (findNextToRun est s).2 = some c := by
            show (findNext est s).2 = some c
            rw [this]
          rw [hsome] at hnone
          cases hnone
  · rintro ⟨h1e, h2e, h3e⟩
    show (findNext est s).2 = none
    simp [findNext, h1e, h2e, h3e]

/-- Witness for the amended C6: with a single band-1 thread of estimate 7,
`findNextToRun` does not return "none". -/
theorem claim6_witness :
    (wsC6.currentThread ∉ wsC6.L1 ∧
      (∀ u ∈ wsC6.L1, (wsC6.threads u).executionTime < 2147483647) ∧
      ∀ u ∈ wsC6.L2, 0 ≤ (wsC6.threads u).priority) ∧
    ¬((findNextToRun estKeep wsC6).2 = none) :=
  ⟨⟨by decide, by decide, by decide⟩, fun hnone =>
    by simpa [show ¬(wsC6.L1 = [] ∧ wsC6.L2 = [] ∧ wsC6.L3 = [])
        from by decide] using
      (claim6_none_iff_empty estKeep wsC6 (by decide) (by decide)
        (by decide)).mp hnone⟩

lemma findNext_threads (est : ThreadData → Int) (s : SchedState) :
    (findNext est s).1.threads =
      if s.L1 = [] ∧ s.L2 = [] ∧ s.L3 = [] then s.threads
      else (preprocessThreads est s).threads := by
  by_cases h : s.L1 = [] ∧ s.L2 = [] ∧ s.L3 = []
  · simp [findNext, h]
  · simp only [findNext, if_neg h]
    cases findNextL1 (preprocessThreads est s).threads
        (preprocessThreads est s).L1 with
    | some r => rfl
    | none =>
      cases findNextL2 (preprocessThreads est s).threads
          (preprocessThreads est s).L2 with
      | some r => rfl
      | none =>
        cases findNextL3 (preprocessThreads est s).L3 with
        | some r => rfl
        | none => rfl

/-- Claim C5 as stated is false on the code: `findNextToRun` applies no
bookkeeping pass to the ready threads — here the ready band-3 thread 1 has
its entire bookkeeping record, its wait counter included, unchanged by the
call (the per-thread loop exists only as commented-out code). -/
theorem claim5_counterexample :
    cexC5.L3 = [1] ∧
    (1 : Nat) ≠ cexC5.currentThread ∧
    (findNextToRun estKeep cexC5).1.threads 1 = cexC5.threads 1 := by decide

/-- Claim C5, amended: on a call to `findNextToRun` with at least one band
non-empty, before any band is consulted the currently running thread has
its burst estimate recomputed by the external estimator, its last quantum
length saved and its accumulated used-time reset to zero, while every
other thread's bookkeeping is left untouched (no per-ready-thread
bookkeeping pass happens); when all bands are empty nothing at all is
touched. -/
theorem claim5_preprocess_only_current (est : ThreadData → Int)
    (s : SchedState) :
    (∀ t, t ≠ s.currentThread →
      (findNextToRun est s).1.threads t = s.threads t) ∧
    (¬(s.L1 = [] ∧ s.L2 = [] ∧ s.L3 = []) →
      (findNextToRun est s).1.threads s.currentThread =
        { s.threads s.currentThread with
            executionTime := est (s.threads s.currentThread),
            lastTick := (s.threads s.currentThread).timeUsed,
            timeUsed := 0 }) ∧
    ((s.L1 = [] ∧ s.L2 = [] ∧ s.L3 = []) → (findNextToRun est s).1 = s) := by
  refine ⟨?_, ?_, ?_⟩
  · intro t ht
    show (findNext est s).1.threads t = s.threads t
    rw [findNext_threads]
    by_cases h : s.L1 = [] ∧ s.L2 = [] ∧ s.L3 = []
    · rw [if_pos h]
    · rw [if_neg h]
      exact preprocessThreads_other est s t ht
  · intro h
    show (findNext est s).1.threads s.currentThread = _
    rw [findNext_threads, if_neg h]
    exact preprocessThreads_current est s
  · intro h
    show (findNext est s).1 = s
    simp [findNext, h]

/-- Witness for the amended C5: with thread 0 running (`timeUsed = 30`,
estimate 11) and thread 1 ready in band 3, the call recomputes thread 0's
record and leaves thread 1 untouched. -/
theorem claim5_witness :
    (¬(wsC5.L1 = [] ∧ wsC5.L2 = [] ∧ wsC5.L3 = [])) ∧
    (findNextToRun estKeep wsC5).1.threads wsC5.currentThread =
      { wsC5.threads wsC5.currentThread with
          executionTime := estKeep (wsC5.threads wsC5.currentThread),
          lastTick := (wsC5.threads wsC5.currentThread).timeUsed,
          timeUsed := 0 } ∧
    (findNextToRun estKeep wsC5).1.threads 1 = wsC5.threads 1 :=
  ⟨by decide,
    (claim5_preprocess_only_current estKeep wsC5).2.1 (by decide),
    (claim5_preprocess_only_current estKeep wsC5).1 1 (by decide)⟩
